import Mathlib

/-!
Shallow embedding of the `crust_of_rust` repository:

* `src/pointers/src/rc.rs` — a single-threaded reference-counted smart
  pointer `Rc<T>` built on `NonNull<RcInner<T>>` and a `Cell<usize>`
  reference count.
* `src/strsplit/src/lib.rs` — a lazy string-splitting iterator `StrSplit`.

The Rc code is modelled as a small heap machine: the heap maps addresses
to live `RcInner` blocks, and a handle (`Rc`) is the address stored in its
`inner: NonNull<RcInner<T>>` field.  The heap is instrumented with event
counters — how many times `T`'s destructor (teardown) has run, how many
times an allocation has been freed, and how many times `T`'s own copy
logic (`T::clone`) has run — so that exactly-once teardown/free claims
become statements about those counters.  Panics and undefined behaviour
(use after free) are modelled by `Option`: an operation returns `none`
when the corresponding Rust execution does not return normally.

The counter is a `Cell<usize>`; usize arithmetic on a 64-bit platform is
modelled as `Nat` arithmetic modulo `2 ^ 64`.  The `debug_assert!` in
`Clone::clone` is active only in debug builds, so `clone` takes a
`debug : Bool` flag: with `debug = true` a saturated count panics
(`none`), with `debug = false` the increment silently wraps, exactly as
release-mode Rust arithmetic does.
-/

namespace Pointers

/-- Modulus of 64-bit `usize` arithmetic. -/
def USIZE_MOD : Nat := 2 ^ 64

/-- `usize::MAX` on a 64-bit platform. -/
def USIZE_MAX : Nat := 2 ^ 64 - 1

/-- The heap block `RcInner<T> { value: T, refcount: Cell<usize> }`.
The `Cell` is represented by the `Nat` it currently holds. -/
structure RcInner (T : Type) where
  value : T
  refcount : Nat
deriving DecidableEq

/-- The instrumented heap: `blocks` maps an address to the live
`RcInner` block stored there (`none` = nothing allocated there, or
already freed); `nextAddr` is the next fresh address handed out by the
allocator; `teardowns`, `frees` and `copies` count how many times the
payload's destructor ran, how many times a block was deallocated, and
how many times the payload's own copy logic (`T::clone`) ran. -/
structure Heap (T : Type) where
  blocks : Nat → Option (RcInner T)
  nextAddr : Nat
  teardowns : Nat
  frees : Nat
  copies : Nat

/-- The handle type `Rc<T> { inner: NonNull<RcInner<T>>, _marker }`:
a handle is the address held in `inner`. -/
structure Rc where
  inner : Nat
deriving DecidableEq

/-- `Rc::new(v)`: `Box::leak` allocates one fresh block holding
`RcInner { value: v, refcount: Cell::new(1) }` and the returned handle
stores its address. -/
def Rc.new {T : Type} (v : T) (h : Heap T) : Rc × Heap T :=
  (⟨h.nextAddr⟩,
    { h with
      blocks := fun a => if a = h.nextAddr then some ⟨v, 1⟩ else h.blocks a,
      nextAddr := h.nextAddr + 1 })

/-- `<Rc as Clone>::clone`: reads the count through the handle's address
(`none` when the block is gone — use after free), checks
`debug_assert!(c != usize::MAX)` in debug builds (`none` models the
panic), then `refcount.set(c + 1)` — release-mode `c + 1` wraps modulo
`2 ^ 64` — and returns `Rc { inner: self.inner, _marker }`: a handle
with the very same address.  `T::clone` is never called, so `copies`
stays put. -/
def Rc.clone {T : Type} (debug : Bool) (r : Rc) (h : Heap T) :
    Option (Rc × Heap T) :=
  match h.blocks r.inner with
  | none => none
  | some inner =>
      if debug = true ∧ inner.refcount = USIZE_MAX then none
      else
        some (⟨r.inner⟩,
          { h with
            blocks := fun a =>
              if a = r.inner then
                some ⟨inner.value, (inner.refcount + 1) % USIZE_MOD⟩
              else h.blocks a })

/-- `<Rc as Deref>::deref`: `&self.inner.as_ref().value`, a read of the
`value` field of the handle's block (`none` = use after free). -/
def Rc.deref {T : Type} (r : Rc) (h : Heap T) : Option T :=
  (h.blocks r.inner).map RcInner.value

/-- The count currently stored in the handle's block's `Cell`. -/
def Rc.refcount {T : Type} (r : Rc) (h : Heap T) : Option Nat :=
  (h.blocks r.inner).map RcInner.refcount

/-- `Rc::get_mut(this)`: reads `(*ptr).refcount.get()`; if it is `1`
returns `Some(&mut (*ptr).value)` — modelled as the value the exclusive
reference points at — otherwise `None`.  It performs no write, so the
heap comes back exactly as it went in.  The outer `Option` is `none`
only on use after free. -/
def Rc.get_mut {T : Type} (r : Rc) (h : Heap T) :
    Option (Option T × Heap T) :=
  match h.blocks r.inner with
  | none => none
  | some inner =>
      if inner.refcount = 1 then some (some inner.value, h)
      else some (none, h)

/-- `<Rc as Drop>::drop`: reads the count; if it is `1`,
`drop(Box::from_raw(ptr))` runs `T`'s destructor and then frees the
block (`teardowns` and `frees` each go up by one and the block
disappears); otherwise `refcount.set(c - 1)` — release-mode `c - 1`
wraps modulo `2 ^ 64`, written here as adding `USIZE_MOD - 1`. -/
def Rc.drop {T : Type} (r : Rc) (h : Heap T) : Option (Heap T) :=
  match h.blocks r.inner with
  | none => none
  | some inner =>
      if inner.refcount = 1 then
        some
          { h with
            blocks := fun a => if a = r.inner then none else h.blocks a,
            teardowns := h.teardowns + 1,
            frees := h.frees + 1 }
      else
        some
          { h with
            blocks := fun a =>
              if a = r.inner then
                some ⟨inner.value,
                      (inner.refcount + (USIZE_MOD - 1)) % USIZE_MOD⟩
              else h.blocks a }

/-- `std::mem::forget(r)`: the handle is abandoned without its `Drop`
glue ever running; nothing on the heap changes. -/
def Rc.forget {T : Type} (_ : Rc) (h : Heap T) : Heap T := h

/-- The two usize bounds used throughout: `usize::MAX < 2 ^ 64`. -/
lemma usize_max_lt : USIZE_MAX < USIZE_MOD := by
  norm_num [USIZE_MAX, USIZE_MOD]

/-- Incrementing a usize strictly below `usize::MAX` does not wrap. -/
lemma usize_incr_eq (c : Nat) (hc : c < USIZE_MAX) :
    (c + 1) % USIZE_MOD = c + 1 := by
  have := usize_max_lt
  exact Nat.mod_eq_of_lt (by omega)

/-- Decrementing a valid, positive usize (written as wrapping addition of
`USIZE_MOD - 1`, as release-mode `c - 1` behaves) is ordinary `c - 1`. -/
lemma usize_decr_eq (c : Nat) (h1 : 1 ≤ c) (h2 : c ≤ USIZE_MAX) :
    (c + (USIZE_MOD - 1)) % USIZE_MOD = c - 1 := by
  have hlt : USIZE_MAX < USIZE_MOD := usize_max_lt
  have heq : c + (USIZE_MOD - 1) = (c - 1) + USIZE_MOD := by omega
  rw [heq, Nat.add_mod_right, Nat.mod_eq_of_lt (by omega)]

/-- After a successful clone the stored count is never 1 again (the
count was at least 1 before; even the release-mode wrap at
`usize::MAX` lands on 0, not 1). -/
lemma usize_incr_ne_one (c : Nat) (hc : 1 ≤ c) (hcM : c ≤ USIZE_MAX) :
    (c + 1) % USIZE_MOD ≠ 1 := by
  rcases Nat.lt_or_ge c USIZE_MAX with hlt | hge
  · rw [usize_incr_eq c hlt]; omega
  · have hceq : c = USIZE_MAX := le_antisymm hcM hge
    subst hceq
    have hmod : USIZE_MAX + 1 = USIZE_MOD := by
      have := usize_max_lt
      norm_num [USIZE_MAX, USIZE_MOD] at *
    rw [hmod, Nat.mod_self]
    omega

/-- Characterization of a successful clone below saturation: the exact
heap it produces. -/
lemma clone_step {T : Type} (debug : Bool) (r : Rc) (h : Heap T) (v : T)
    (c : Nat) (hb : h.blocks r.inner = some ⟨v, c⟩) (hc : c < USIZE_MAX) :
    Rc.clone debug r h = some (⟨r.inner⟩,
      { h with blocks := fun a =>
          if a = r.inner then some ⟨v, c + 1⟩ else h.blocks a }) := by
  have hd : ¬(debug = true ∧ c = USIZE_MAX) := by
    rintro ⟨-, hmax⟩
    omega
  simp only [Rc.clone, hb]
  rw [if_neg hd]
  simp only [usize_incr_eq c hc]

/-- Characterization of `drop` on a block whose count is exactly 1: the
teardown and the free both happen and the block disappears. -/
lemma drop_last_step {T : Type} (r : Rc) (h : Heap T) (v : T)
    (hb : h.blocks r.inner = some ⟨v, 1⟩) :
    Rc.drop r h = some
      { h with
        blocks := fun a => if a = r.inner then none else h.blocks a,
        teardowns := h.teardowns + 1,
        frees := h.frees + 1 } := by
  simp [Rc.drop, hb]

/-- Characterization of `drop` on a block whose count exceeds 1: only
the count moves, down by one. -/
lemma drop_dec_step {T : Type} (r : Rc) (h : Heap T) (v : T) (c : Nat)
    (hb : h.blocks r.inner = some ⟨v, c⟩) (hc1 : 1 < c)
    (hcM : c ≤ USIZE_MAX) :
    Rc.drop r h = some
      { h with blocks := fun a =>
          if a = r.inner then some ⟨v, c - 1⟩ else h.blocks a } := by
  have hne : c ≠ 1 := by omega
  simp only [Rc.drop, hb]
  rw [if_neg hne]
  simp only [usize_decr_eq c (by omega) hcM]

/-- `get_mut` issues no write, so the heap in a successful result is
the input heap itself. -/
lemma get_mut_heap_unchanged {T : Type} (r : Rc) (h : Heap T)
    (res : Option T) (h' : Heap T)
    (hm : Rc.get_mut r h = some (res, h')) : h' = h := by
  unfold Rc.get_mut at hm
  cases hbl : h.blocks r.inner with
  | none => rw [hbl] at hm; cases hm
  | some inner =>
      rw [hbl] at hm
      by_cases h1 : inner.refcount = 1 <;>
        simp only [h1, if_pos, if_neg, if_true, if_false,
          Option.some.injEq, Prod.mk.injEq, reduceIte] at hm <;>
        exact hm.2.symm

/-- A successful clone never touches the teardown counter. -/
lemma clone_preserves_teardowns {T : Type} (debug : Bool) (r : Rc)
    (h : Heap T) (p : Rc × Heap T)
    (hcl : Rc.clone debug r h = some p) : p.2.teardowns = h.teardowns := by
  cases hbl : h.blocks r.inner with
  | none => simp [Rc.clone, hbl] at hcl
  | some inner =>
      simp only [Rc.clone, hbl] at hcl
      by_cases hd : debug = true ∧ inner.refcount = USIZE_MAX
      · simp [hd] at hcl
      · rw [if_neg hd] at hcl
        simp only [Option.some.injEq] at hcl
        subst hcl
        rfl

/-- `n` successive clones through the address held by `r`, in a debug
build.  Every handle over this block holds the same address, so cloning
"some handle" `n` times, whichever handles are chosen, is this very
iteration; `none` means some clone panicked or hit a freed block. -/
def iterClone {T : Type} (r : Rc) : Nat → Heap T → Option (Heap T)
  | 0, h => some h
  | n + 1, h =>
      match Rc.clone true r h with
      | none => none
      | some p => iterClone r n p.2

/-- `j` successive destructions of handles over the block at `r`'s
address.  Destruction order among the handles is immaterial: each
handle holds the same address, so every destruction is this same heap
step. -/
def iterDrop {T : Type} (r : Rc) : Nat → Heap T → Option (Heap T)
  | 0, h => some h
  | j + 1, h =>
      match Rc.drop r h with
      | none => none
      | some h' => iterDrop r j h'

/-- Peeling the last destruction off the back of an iterated drop. -/
lemma iterDrop_succ_back {T : Type} (r : Rc) (n : Nat) (h : Heap T) :
    iterDrop r (n + 1) h = (iterDrop r n h).bind (Rc.drop r) := by
  induction n generalizing h with
  | zero => cases hd : Rc.drop r h <;> simp [iterDrop, hd]
  | succ n ih =>
      cases hd : Rc.drop r h with
      | none => simp [iterDrop, hd]
      | some h1 => simp only [iterDrop, hd]; exact ih h1

/-- Running `n` clones from a live block at count `c` (with room below
`usize::MAX`) succeeds, raises the count to `c + n`, and leaves the
value, the event counters and every other address untouched. -/
lemma iterClone_spec {T : Type} (r : Rc) (v : T) :
    ∀ (n c : Nat) (h : Heap T),
      h.blocks r.inner = some ⟨v, c⟩ → 1 ≤ c → c + n ≤ USIZE_MAX →
      ∃ h', iterClone r n h = some h' ∧
        h'.blocks r.inner = some ⟨v, c + n⟩ ∧
        h'.teardowns = h.teardowns ∧ h'.frees = h.frees ∧
        h'.copies = h.copies := by
  intro n
  induction n with
  | zero =>
      intro c h hb _ _
      exact ⟨h, rfl, by simpa using hb, rfl, rfl, rfl⟩
  | succ n ih =>
      intro c h hb hc hn
      have hclt : c < USIZE_MAX := by omega
      have hcl := clone_step true r h v c hb hclt
      have hb1 : ({ h with blocks := fun a =>
          if a = r.inner then some ⟨v, c + 1⟩ else h.blocks a } :
            Heap T).blocks r.inner = some ⟨v, c + 1⟩ := by simp
      obtain ⟨h', hit, hbk, hta, hfr, hcp⟩ :=
        ih (c + 1) _ hb1 (by omega) (by omega)
      refine ⟨h', ?_, ?_, hta, hfr, hcp⟩
      · simp only [iterClone, hcl]
        exact hit
      · have harith : c + 1 + n = c + (n + 1) := by omega
        rw [hbk, harith]

/-- Running `j < c` destructions from a live block at valid count `c`
succeeds, lowers the count to `c - j`, and runs no teardown and no
free. -/
lemma iterDrop_spec {T : Type} (r : Rc) (v : T) :
    ∀ (j c : Nat) (h : Heap T),
      h.blocks r.inner = some ⟨v, c⟩ → j < c → c ≤ USIZE_MAX →
      ∃ h', iterDrop r j h = some h' ∧
        h'.blocks r.inner = some ⟨v, c - j⟩ ∧
        h'.teardowns = h.teardowns ∧ h'.frees = h.frees ∧
        h'.copies = h.copies := by
  intro j
  induction j with
  | zero =>
      intro c h hb _ _
      exact ⟨h, rfl, by simpa using hb, rfl, rfl, rfl⟩
  | succ j ih =>
      intro c h hb hj hcM
      have hc1 : 1 < c := by omega
      have hdr := drop_dec_step r h v c hb hc1 hcM
      have hb1 : ({ h with blocks := fun a =>
          if a = r.inner then some ⟨v, c - 1⟩ else h.blocks a } :
            Heap T).blocks r.inner = some ⟨v, c - 1⟩ := by simp
      obtain ⟨h', hit, hbk, hta, hfr, hcp⟩ :=
        ih (c - 1) _ hb1 (by omega) (by omega)
      refine ⟨h', ?_, ?_, hta, hfr, hcp⟩
      · simp only [iterDrop, hdr]
        exact hit
      · have harith : c - 1 - j = c - (j + 1) := by omega
        rw [hbk, harith]

/-- C5: constructing a handle over `v` allocates a block whose counter
starts at 1, and dereferencing the fresh handle yields `v` unchanged. -/
theorem rc_new_deref {T : Type} (v : T) (h : Heap T) :
    Rc.deref (Rc.new v h).1 (Rc.new v h).2 = some v ∧
    Rc.refcount (Rc.new v h).1 (Rc.new v h).2 = some 1 := by
  constructor <;> simp [Rc.new, Rc.deref, Rc.refcount]

/-- C2: `get_mut` hands out the exclusive reference iff the count is
exactly 1, returns `None` when the count exceeds 1, and immediately
after a clone both the new and the old handle get `None`. -/
theorem rc_get_mut_iff_unique {T : Type} (r : Rc) (h : Heap T) (v : T)
    (c : Nat) (hb : h.blocks r.inner = some ⟨v, c⟩) (hc : 1 ≤ c)
    (hcM : c ≤ USIZE_MAX) :
    (Rc.get_mut r h = some (some v, h) ↔ c = 1) ∧
    (1 < c → Rc.get_mut r h = some (none, h)) ∧
    (∀ (debug : Bool) (r' : Rc) (h' : Heap T),
      Rc.clone debug r h = some (r', h') →
      Rc.get_mut r' h' = some ((none : Option T), h') ∧
      Rc.get_mut r h' = some ((none : Option T), h')) := by
  refine ⟨?_, ?_, ?_⟩
  · constructor
    · intro hgm
      by_contra hne
      simp [Rc.get_mut, hb, hne] at hgm
    · intro h1
      subst h1
      simp [Rc.get_mut, hb]
  · intro hlt
    have hne : c ≠ 1 := by omega
    simp [Rc.get_mut, hb, hne]
  · intro debug r' h' hcl
    simp only [Rc.clone, hb] at hcl
    by_cases hd : debug = true ∧ c = USIZE_MAX
    · simp [hd] at hcl
    · simp only [if_neg hd, Option.some.injEq, Prod.mk.injEq] at hcl
      obtain ⟨hr', hh'⟩ := hcl
      subst hh'
      have hne1 : (c + 1) % USIZE_MOD ≠ 1 := usize_incr_ne_one c hc hcM
      constructor
      · rw [← hr']
        simp [Rc.get_mut, hne1]
      · simp [Rc.get_mut, hne1]

/-- C3: a successful clone increments the stored count by exactly one,
returns a handle holding the very same address, both handles
dereference to the same (unchanged) value, and the payload's own copy
logic never runs. -/
theorem rc_clone_shares_block {T : Type} (debug : Bool) (r : Rc)
    (h : Heap T) (v : T) (c : Nat) (hb : h.blocks r.inner = some ⟨v, c⟩)
    (hc : c < USIZE_MAX) :
    ∃ r' h', Rc.clone debug r h = some (r', h') ∧
      r'.inner = r.inner ∧
      Rc.refcount r' h' = some (c + 1) ∧
      Rc.deref r' h' = Rc.deref r h' ∧
      Rc.deref r' h' = some v ∧
      h'.copies = h.copies := by
  have hd : ¬(debug = true ∧ c = USIZE_MAX) := by
    rintro ⟨-, hmax⟩
    omega
  refine ⟨⟨r.inner⟩,
    { h with blocks := fun a =>
        if a = r.inner then some ⟨v, (c + 1) % USIZE_MOD⟩
        else h.blocks a },
    ?_, rfl, ?_, rfl, ?_, rfl⟩
  · simp only [Rc.clone, hb]
    rw [if_neg hd]
  · simp [Rc.refcount, usize_incr_eq c hc]
  · simp [Rc.deref]

/-- C4: `drop` at count 1 runs the teardown and frees the block once,
leaving every other address alone; `drop` at count above 1 only
decrements the count by one, leaving the value, the other addresses and
the event counters untouched. -/
theorem rc_drop_cases {T : Type} (r : Rc) (h : Heap T) (v : T) (c : Nat)
    (hb : h.blocks r.inner = some ⟨v, c⟩) (hcM : c ≤ USIZE_MAX) :
    (c = 1 → ∃ h', Rc.drop r h = some h' ∧
      h'.blocks r.inner = none ∧
      h'.teardowns = h.teardowns + 1 ∧ h'.frees = h.frees + 1 ∧
      (∀ a, a ≠ r.inner → h'.blocks a = h.blocks a)) ∧
    (1 < c → ∃ h', Rc.drop r h = some h' ∧
      h'.blocks r.inner = some ⟨v, c - 1⟩ ∧
      h'.teardowns = h.teardowns ∧ h'.frees = h.frees ∧
      h'.copies = h.copies ∧
      (∀ a, a ≠ r.inner → h'.blocks a = h.blocks a)) := by
  constructor
  · intro h1
    subst h1
    refine ⟨{ h with
        blocks := fun a => if a = r.inner then none else h.blocks a,
        teardowns := h.teardowns + 1,
        frees := h.frees + 1 }, ?_, ?_, rfl, rfl, ?_⟩
    · simp [Rc.drop, hb]
    · simp
    · intro a ha
      simp [ha]
  · intro hlt
    have hne : c ≠ 1 := by omega
    refine ⟨{ h with
        blocks := fun a =>
          if a = r.inner then
            some ⟨v, (c + (USIZE_MOD - 1)) % USIZE_MOD⟩
          else h.blocks a }, ?_, ?_, rfl, rfl, rfl, ?_⟩
    · simp [Rc.drop, hb, hne]
    · simp [usize_decr_eq c (by omega) hcM]
    · intro a ha
      simp [ha]

/-- C8: `get_mut` never writes: whichever of the two results it
returns, the heap it hands back is exactly the heap it was given. -/
theorem rc_get_mut_frame {T : Type} (r : Rc) (h : Heap T)
    (res : Option T) (h' : Heap T)
    (hm : Rc.get_mut r h = some (res, h')) : h' = h :=
  get_mut_heap_unchanged r h res h' hm

/-- C9: a successful clone touches only the reference-count field of
the handle's own block: the payload value, every other address, the
allocator cursor and all three event counters are unchanged, so
dereferencing the original handle gives the same value before and
after. -/
theorem rc_clone_frame {T : Type} (debug : Bool) (r r' : Rc)
    (h h' : Heap T) (hcl : Rc.clone debug r h = some (r', h')) :
    Rc.deref r h' = Rc.deref r h ∧
    h'.teardowns = h.teardowns ∧ h'.frees = h.frees ∧
    h'.copies = h.copies ∧ h'.nextAddr = h.nextAddr ∧
    (∀ a, a ≠ r.inner → h'.blocks a = h.blocks a) ∧
    ∃ v c, h.blocks r.inner = some ⟨v, c⟩ ∧
      h'.blocks r.inner = some ⟨v, (c + 1) % USIZE_MOD⟩ := by
  cases hbl : h.blocks r.inner with
  | none => simp [Rc.clone, hbl] at hcl
  | some inner =>
      simp only [Rc.clone, hbl] at hcl
      by_cases hd : debug = true ∧ inner.refcount = USIZE_MAX
      · simp [hd] at hcl
      · simp only [if_neg hd, Option.some.injEq, Prod.mk.injEq] at hcl
        obtain ⟨-, hh'⟩ := hcl
        subst hh'
        refine ⟨?_, rfl, rfl, rfl, rfl, ?_, inner.value, inner.refcount,
          ?_, ?_⟩
        · simp [Rc.deref, hbl]
        · intro a ha
          simp [ha]
        · rfl
        · simp

/-- C1: from a fresh handle over `v`, `N` clones followed by the
destruction of all `N + 1` handles (order immaterial — every handle is
the same address, so each destruction is the same heap step): before
the last destruction no teardown and no free has happened, and the
last destruction — the one that sees the count at 1 — runs the
teardown exactly once and frees the block exactly once. -/
theorem rc_teardown_exactly_once {T : Type} (v : T) (h0 : Heap T)
    (N : Nat) (hN : N + 1 ≤ USIZE_MAX) :
    ∃ h2, iterClone (Rc.new v h0).1 N (Rc.new v h0).2 = some h2 ∧
      (∀ j, j ≤ N → ∃ hj, iterDrop (Rc.new v h0).1 j h2 = some hj ∧
        hj.teardowns = h0.teardowns ∧ hj.frees = h0.frees ∧
        hj.blocks (Rc.new v h0).1.inner = some ⟨v, N + 1 - j⟩) ∧
      ∃ hf, iterDrop (Rc.new v h0).1 (N + 1) h2 = some hf ∧
        hf.teardowns = h0.teardowns + 1 ∧ hf.frees = h0.frees + 1 ∧
        hf.blocks (Rc.new v h0).1.inner = none := by
  have hb1 : (Rc.new v h0).2.blocks (Rc.new v h0).1.inner =
      some ⟨v, 1⟩ := by
    simp [Rc.new]
  obtain ⟨h2, hcl, hb2, hta2, hfr2, -⟩ :=
    iterClone_spec (Rc.new v h0).1 v N 1 (Rc.new v h0).2 hb1 le_rfl
      (by omega)
  have hta2' : h2.teardowns = h0.teardowns := hta2
  have hfr2' : h2.frees = h0.frees := hfr2
  refine ⟨h2, hcl, ?_, ?_⟩
  · intro j hj
    obtain ⟨hj', hit, hbk, hta, hfr, -⟩ :=
      iterDrop_spec (Rc.new v h0).1 v j (1 + N) h2 hb2 (by omega)
        (by omega)
    refine ⟨hj', hit, hta.trans hta2', hfr.trans hfr2', ?_⟩
    have harith : 1 + N - j = N + 1 - j := by omega
    rw [hbk, harith]
  · obtain ⟨hN', hit, hbk, hta, hfr, -⟩ :=
      iterDrop_spec (Rc.new v h0).1 v N (1 + N) h2 hb2 (by omega)
        (by omega)
    have hbk1 : hN'.blocks (Rc.new v h0).1.inner = some ⟨v, 1⟩ := by
      have harith : 1 + N - N = 1 := by omega
      rw [hbk, harith]
    have hlast := drop_last_step (Rc.new v h0).1 hN' v hbk1
    refine ⟨{ hN' with
        blocks := fun a =>
          if a = (Rc.new v h0).1.inner then none else hN'.blocks a,
        teardowns := hN'.teardowns + 1,
        frees := hN'.frees + 1 }, ?_, ?_, ?_, ?_⟩
    · rw [iterDrop_succ_back, hit]
      simpa using hlast
    · show hN'.teardowns + 1 = h0.teardowns + 1
      rw [hta, hta2']
    · show hN'.frees + 1 = h0.frees + 1
      rw [hfr, hfr2']
    · simp

/-- A concrete heap over `Nat` payloads whose single block, at address
0, has its count saturated at `usize::MAX` — the state a release build
reaches after `usize::MAX - 1` successful clones of a fresh handle. -/
def satHeap : Heap Nat :=
  { blocks := fun a => if a = 0 then some ⟨7, USIZE_MAX⟩ else none,
    nextAddr := 1,
    teardowns := 0,
    frees := 0,
    copies := 0 }

/-- The saturated usize wraps to 0 when incremented mod `2 ^ 64`. -/
lemma usize_max_incr_wraps : (USIZE_MAX + 1) % USIZE_MOD = 0 := by
  norm_num [USIZE_MAX, USIZE_MOD]

/-- C6 counterexample: in a release build (`debug = false`, the
`debug_assert!` compiled out), cloning a handle whose count sits at
`usize::MAX` returns normally — no panic, nothing observable — and the
stored count has silently wrapped to 0.  So the count does wrap past
the maximum in release builds, refuting "must never silently wrap in
any build". -/
theorem rc_clone_release_wrap_cex :
    (Rc.clone false ⟨0⟩ satHeap).map (fun p => Rc.refcount p.1 p.2) =
      some (some 0) := by
  have hb : satHeap.blocks (0 : Nat) = some ⟨7, USIZE_MAX⟩ := rfl
  have hstep : Rc.clone false ⟨0⟩ satHeap = some (⟨0⟩,
      { satHeap with blocks := fun a =>
          if a = 0 then some ⟨7, (USIZE_MAX + 1) % USIZE_MOD⟩
          else satHeap.blocks a }) := by
    simp only [Rc.clone, hb]
    rw [if_neg (by simp)]
  rw [hstep]
  simp [Rc.refcount, usize_max_incr_wraps]

/-- C6 amended: in a debug build, clone asserts before incrementing
that the count has not saturated `usize::MAX` — at the maximum it
panics instead of wrapping, and below the maximum it increments by one
without wrapping in either build; in a release build the assertion is
compiled out and a clone at the maximum silently wraps the stored
count to 0. -/
theorem rc_clone_overflow_behavior {T : Type} (r : Rc) (h : Heap T)
    (v : T) (c : Nat) (hb : h.blocks r.inner = some ⟨v, c⟩) :
    (c = USIZE_MAX → Rc.clone true r h = none) ∧
    (c < USIZE_MAX → ∀ debug, ∃ h',
      Rc.clone debug r h = some (⟨r.inner⟩, h') ∧
      Rc.refcount r h' = some (c + 1)) ∧
    (c = USIZE_MAX → ∃ h', Rc.clone false r h = some (⟨r.inner⟩, h') ∧
      Rc.refcount r h' = some 0) := by
  refine ⟨?_, ?_, ?_⟩
  · intro hmax
    subst hmax
    simp [Rc.clone, hb]
  · intro hlt debug
    refine ⟨_, clone_step debug r h v c hb hlt, ?_⟩
    simp [Rc.refcount]
  · intro hmax
    subst hmax
    refine ⟨{ h with blocks := fun a =>
        if a = r.inner then some ⟨v, (USIZE_MAX + 1) % USIZE_MOD⟩
        else h.blocks a }, ?_, ?_⟩
    · simp only [Rc.clone, hb]
      rw [if_neg (by simp)]
    · simp [Rc.refcount, usize_max_incr_wraps]

/-- One observable heap transition of the Rc machine: a handle
operation that runs to completion (the operations of §4 of the spec —
construction, clone, mutable-access check, destruction; leaking a
handle is no transition at all). -/
inductive Step {T : Type} : Heap T → Heap T → Prop
  | new (v : T) (h : Heap T) : Step h (Rc.new v h).2
  | clone (debug : Bool) (r : Rc) (h : Heap T) (p : Rc × Heap T) :
      Rc.clone debug r h = some p → Step h p.2
  | get_mut (r : Rc) (h : Heap T) (p : Option T × Heap T) :
      Rc.get_mut r h = some p → Step h p.2
  | drop (r : Rc) (h : Heap T) (h' : Heap T) :
      Rc.drop r h = some h' → Step h h'

/-- C7: abandoning a handle without running its destruction logic
(`mem::forget`) changes nothing on the heap — in particular it never
runs the teardown, and the allocation stays put forever; and across
every possible heap transition the teardown counter moves only when
the transition is a `drop` of a handle whose block holds count 1, and
then by exactly one. -/
theorem rc_leak_never_tears_down {T : Type} :
    (∀ (r : Rc) (h : Heap T), Rc.forget r h = h) ∧
    (∀ h h' : Heap T, Step h h' →
      h'.teardowns = h.teardowns ∨
      (h'.teardowns = h.teardowns + 1 ∧
        ∃ r, Rc.refcount r h = some 1 ∧ Rc.drop r h = some h')) := by
  refine ⟨fun _ _ => rfl, ?_⟩
  intro h h' hstep
  cases hstep with
  | new v h => exact Or.inl rfl
  | clone debug r h p hcl =>
      exact Or.inl (clone_preserves_teardowns debug r h p hcl)
  | get_mut r h p hgm =>
      left
      rw [get_mut_heap_unchanged r h p.1 p.2 (by rw [← hgm])]
  | drop r h h' hdr =>
      cases hbl : h.blocks r.inner with
      | none => simp [Rc.drop, hbl] at hdr
      | some inner =>
          by_cases h1 : inner.refcount = 1
          · right
            simp only [Rc.drop, hbl, h1, if_pos, reduceIte,
              Option.some.injEq] at hdr
            subst hdr
            exact ⟨rfl, r, by simp [Rc.refcount, hbl, h1], by
              simp [Rc.drop, hbl, h1]⟩
          · left
            simp only [Rc.drop, hbl, h1, if_neg, reduceIte,
              Option.some.injEq] at hdr
            subst hdr
            rfl

/-- The empty starting heap over `Nat` payloads. -/
def emptyHeap : Heap Nat :=
  { blocks := fun _ => none,
    nextAddr := 0,
    teardowns := 0,
    frees := 0,
    copies := 0 }

/-- The heap holding one fresh `Rc` over the value 10, at address 0. -/
def oneHeap : Heap Nat := (Rc.new 10 emptyHeap).2

/-- `oneHeap` after its only handle is destroyed. -/
def droppedHeap : Heap Nat :=
  { oneHeap with
    blocks := fun a => if a = 0 then none else oneHeap.blocks a,
    teardowns := oneHeap.teardowns + 1,
    frees := oneHeap.frees + 1 }

/-- `oneHeap` after one clone of its handle. -/
def clonedHeap : Heap Nat :=
  { oneHeap with
    blocks := fun a =>
      if a = 0 then some ⟨10, (1 + 1) % USIZE_MOD⟩ else oneHeap.blocks a }

/-- A heap whose single block, at address 0, holds value 10 at
count 2. -/
def twoHeap : Heap Nat :=
  { blocks := fun a => if a = 0 then some ⟨10, 2⟩ else none,
    nextAddr := 1,
    teardowns := 0,
    frees := 0,
    copies := 0 }

/-- Witness for C1 at `v = 5`, `N = 2`, starting from the empty heap. -/
theorem rc_teardown_exactly_once_witness :
    ∃ h2, iterClone (Rc.new 5 emptyHeap).1 2 (Rc.new 5 emptyHeap).2 =
        some h2 ∧
      (∀ j, j ≤ 2 →
        ∃ hj, iterDrop (Rc.new 5 emptyHeap).1 j h2 = some hj ∧
          hj.teardowns = emptyHeap.teardowns ∧
          hj.frees = emptyHeap.frees ∧
          hj.blocks (Rc.new 5 emptyHeap).1.inner = some ⟨5, 2 + 1 - j⟩) ∧
      ∃ hf, iterDrop (Rc.new 5 emptyHeap).1 (2 + 1) h2 = some hf ∧
        hf.teardowns = emptyHeap.teardowns + 1 ∧
        hf.frees = emptyHeap.frees + 1 ∧
        hf.blocks (Rc.new 5 emptyHeap).1.inner = none :=
  rc_teardown_exactly_once 5 emptyHeap 2 (by decide)

/-- Witness for C2 on the heap with one fresh handle (count 1). -/
theorem rc_get_mut_iff_unique_witness :
    (Rc.get_mut ⟨0⟩ oneHeap = some (some 10, oneHeap) ↔ (1 : Nat) = 1) ∧
    ((1 : Nat) < 1 → Rc.get_mut ⟨0⟩ oneHeap = some (none, oneHeap)) ∧
    (∀ (debug : Bool) (r' : Rc) (h' : Heap Nat),
      Rc.clone debug ⟨0⟩ oneHeap = some (r', h') →
      Rc.get_mut r' h' = some ((none : Option Nat), h') ∧
      Rc.get_mut ⟨0⟩ h' = some ((none : Option Nat), h')) :=
  rc_get_mut_iff_unique ⟨0⟩ oneHeap 10 1 rfl (by decide) (by decide)

/-- Witness for C3: cloning the fresh handle at count 1. -/
theorem rc_clone_shares_block_witness :
    ∃ r' h', Rc.clone true ⟨0⟩ oneHeap = some (r', h') ∧
      r'.inner = (⟨0⟩ : Rc).inner ∧
      Rc.refcount r' h' = some (1 + 1) ∧
      Rc.deref r' h' = Rc.deref ⟨0⟩ h' ∧
      Rc.deref r' h' = some 10 ∧
      h'.copies = oneHeap.copies :=
  rc_clone_shares_block true ⟨0⟩ oneHeap 10 1 rfl (by decide)

/-- Witness for C4 on a block at count 2. -/
theorem rc_drop_cases_witness :
    ((2 : Nat) = 1 → ∃ h', Rc.drop ⟨0⟩ twoHeap = some h' ∧
      h'.blocks (⟨0⟩ : Rc).inner = none ∧
      h'.teardowns = twoHeap.teardowns + 1 ∧
      h'.frees = twoHeap.frees + 1 ∧
      (∀ a, a ≠ (⟨0⟩ : Rc).inner → h'.blocks a = twoHeap.blocks a)) ∧
    ((1 : Nat) < 2 → ∃ h', Rc.drop ⟨0⟩ twoHeap = some h' ∧
      h'.blocks (⟨0⟩ : Rc).inner = some ⟨10, 2 - 1⟩ ∧
      h'.teardowns = twoHeap.teardowns ∧
      h'.frees = twoHeap.frees ∧
      h'.copies = twoHeap.copies ∧
      (∀ a, a ≠ (⟨0⟩ : Rc).inner → h'.blocks a = twoHeap.blocks a)) :=
  rc_drop_cases ⟨0⟩ twoHeap 10 2 rfl (by decide)

/-- Witness for the amended C6 on the saturated heap. -/
theorem rc_clone_overflow_behavior_witness :
    (USIZE_MAX = USIZE_MAX → Rc.clone true ⟨0⟩ satHeap = none) ∧
    (USIZE_MAX < USIZE_MAX → ∀ debug, ∃ h',
      Rc.clone debug ⟨0⟩ satHeap = some (⟨0⟩, h') ∧
      Rc.refcount ⟨0⟩ h' = some (USIZE_MAX + 1)) ∧
    (USIZE_MAX = USIZE_MAX → ∃ h',
      Rc.clone false ⟨0⟩ satHeap = some (⟨0⟩, h') ∧
      Rc.refcount ⟨0⟩ h' = some 0) :=
  rc_clone_overflow_behavior ⟨0⟩ satHeap 7 USIZE_MAX rfl

/-- Witness for C7: leaking on the one-handle heap, and the transition
that destroys its last handle. -/
theorem rc_leak_never_tears_down_witness :
    Rc.forget ⟨0⟩ oneHeap = oneHeap ∧
    (droppedHeap.teardowns = oneHeap.teardowns ∨
      (droppedHeap.teardowns = oneHeap.teardowns + 1 ∧
        ∃ r, Rc.refcount r oneHeap = some 1 ∧
          Rc.drop r oneHeap = some droppedHeap)) :=
  ⟨rc_leak_never_tears_down.1 ⟨0⟩ oneHeap,
    rc_leak_never_tears_down.2 oneHeap droppedHeap
      (Step.drop ⟨0⟩ oneHeap droppedHeap rfl)⟩

/-- Witness for C8: `get_mut` on the one-handle heap. -/
theorem rc_get_mut_frame_witness : oneHeap = oneHeap :=
  rc_get_mut_frame ⟨0⟩ oneHeap (some 10) oneHeap rfl

/-- Witness for C9: the concrete clone of the fresh handle. -/
theorem rc_clone_frame_witness :
    Rc.deref ⟨0⟩ clonedHeap = Rc.deref ⟨0⟩ oneHeap ∧
    clonedHeap.teardowns = oneHeap.teardowns ∧
    clonedHeap.frees = oneHeap.frees ∧
    clonedHeap.copies = oneHeap.copies ∧
    clonedHeap.nextAddr = oneHeap.nextAddr ∧
    (∀ a, a ≠ (⟨0⟩ : Rc).inner →
      clonedHeap.blocks a = oneHeap.blocks a) ∧
    ∃ v c, oneHeap.blocks (⟨0⟩ : Rc).inner = some ⟨v, c⟩ ∧
      clonedHeap.blocks (⟨0⟩ : Rc).inner = some ⟨v, (c + 1) % USIZE_MOD⟩ :=
  rc_clone_frame true ⟨0⟩ ⟨0⟩ oneHeap clonedHeap rfl

end Pointers

/-!
Embedding of `src/strsplit/src/lib.rs`.

A `&str` is modelled as a `List Char`; the positions a `Delimiter`
reports are positions in that character sequence (the Rust code works
with byte offsets which always fall on character boundaries there, so
`char::len_utf8` becomes 1 and `&s[..start]` / `&s[end..]` become
`List.take start` / `List.drop stop`).  A delimiter value is modelled
by its one trait method `find_next`.
-/

namespace Strsplit

/-- The iterator `StrSplit { remainder, delimiter, empty_leading_pending }`.
The `delimiter: D` field is represented by the `find_next` method the
trait bound `D: Delimiter` gives it. -/
structure StrSplit where
  remainder : Option (List Char)
  delimiter : List Char → Option (Nat × Nat)
  empty_leading_pending : Bool

/-- `StrSplit::new(haystack, delimiter)`. -/
def StrSplit.new (haystack : List Char)
    (delimiter : List Char → Option (Nat × Nat)) : StrSplit :=
  { remainder := some haystack,
    delimiter := delimiter,
    empty_leading_pending := true }

/-- `<StrSplit as Iterator>::next`.  The Rust `end` binder is renamed
`stop` (`end` is a Lean keyword).  `self.remainder.take()?` removes the
remainder and aborts with `None` when it was absent; in the
`start == end` branch the first character (`char_indices().next()`,
whose UTF-8 width `k` is 1 character here) is yielded and skipped. -/
def StrSplit.next (self : StrSplit) : Option (List Char) × StrSplit :=
  match self.remainder with
  | none => (none, self)
  | some s =>
      let st := { self with remainder := none }
      match self.delimiter s with
      | some (start, stop) =>
          if start = stop then
            if st.empty_leading_pending then
              (some [], { st with
                empty_leading_pending := false,
                remainder := some s })
            else if s = [] then
              (some [], st)
            else
              (some (s.take 1), { st with remainder := some (s.drop 1) })
          else
            (some (s.take start), { st with
              empty_leading_pending := true,
              remainder := some (s.drop stop) })
      | none => (some s, { st with empty_leading_pending := true })

/-- `str::find(&str)`: character index of the first occurrence of
`pat` in the haystack. -/
def findSub (pat : List Char) : List Char → Option Nat
  | [] => if pat = [] then some 0 else none
  | c :: t =>
      if pat.isPrefixOf (c :: t) then some 0
      else (findSub pat t).map (fun i => i + 1)

/-- `impl Delimiter for &str`: an empty pattern matches `(0, 0)`; a
non-empty pattern is looked up with `str::find`, the match ending
`pattern.length` later. -/
def strDelim (pat : List Char) (s : List Char) : Option (Nat × Nat) :=
  if pat = [] then some (0, 0)
  else (findSub pat s).map (fun start => (start, start + pat.length))

/-- Collecting the iterator's output with explicit fuel, as the tests'
`Vec` collection does. -/
def StrSplit.collect : Nat → StrSplit → List (List Char)
  | 0, _ => []
  | fuel + 1, st =>
      match st.next with
      | (none, _) => []
      | (some x, st') => x :: StrSplit.collect fuel st'

/-- Model validation against the repository's own tests:
`StrSplit::new("a b c d e", " ")` collects to `["a","b","c","d","e"]`,
`"a b c d "` keeps its trailing empty piece, and `"010"` split on `"0"`
gives `["", "1", ""]`. -/
theorem strsplit_model_matches_tests :
    StrSplit.collect 16
        (StrSplit.new ("a b c d e".toList) (strDelim (" ".toList))) =
      ["a".toList, "b".toList, "c".toList, "d".toList, "e".toList] ∧
    StrSplit.collect 16
        (StrSplit.new ("a b c d ".toList) (strDelim (" ".toList))) =
      ["a".toList, "b".toList, "c".toList, "d".toList, "".toList] ∧
    StrSplit.collect 16
        (StrSplit.new ("010".toList) (strDelim ("0".toList))) =
      ["".toList, "1".toList, "".toList] ∧
    StrSplit.collect 16
        (StrSplit.new ("rust".toList) (strDelim ("".toList))) =
      ["".toList, "r".toList, "u".toList, "s".toList, "t".toList,
        "".toList] := by
  refine ⟨?_, ?_, ?_, ?_⟩ <;> rfl

/-- C10: a freshly constructed `StrSplit` always yields on its first
`next` — on an empty haystack it yields the empty string — and, for
any iterator state, `next` returns `None` exactly when the remainder
has already been taken.  The delimiter is arbitrary subject to
reporting in-bounds matches (`start ≤ stop ≤ length`), which every
`Delimiter` impl in the source satisfies; out-of-bounds reports would
make the Rust slicing panic rather than return. -/
theorem strsplit_first_next_some (haystack : List Char)
    (d : List Char → Option (Nat × Nat))
    (hd : ∀ s start stop, d s = some (start, stop) →
      start ≤ stop ∧ stop ≤ s.length) :
    (StrSplit.new haystack d).next.1.isSome = true ∧
    (haystack = [] → (StrSplit.new haystack d).next.1 = some []) ∧
    (∀ st : StrSplit, st.next.1 = none ↔ st.remainder = none) := by
  refine ⟨?_, ?_, ?_⟩
  · simp only [StrSplit.new, StrSplit.next]
    cases hfn : d haystack with
    | none => simp
    | some p =>
        obtain ⟨start, stop⟩ := p
        by_cases hse : start = stop <;> simp [hse]
  · intro he
    subst he
    simp only [StrSplit.new, StrSplit.next]
    cases hfn : d [] with
    | none => simp
    | some p =>
        obtain ⟨start, stop⟩ := p
        obtain ⟨h1, h2⟩ := hd [] start stop hfn
        have hs0 : start = 0 := by simp at h2; omega
        have ht0 : stop = 0 := by simp at h2; omega
        subst hs0; subst ht0
        simp
  · intro st
    cases hrem : st.remainder with
    | none => simp [StrSplit.next, hrem]
    | some s =>
        simp only [StrSplit.next, hrem]
        constructor
        · intro hnone
          exfalso
          cases hfn : st.delimiter s with
          | none => rw [hfn] at hnone; simp at hnone
          | some p =>
              obtain ⟨start, stop⟩ := p
              rw [hfn] at hnone
              by_cases hse : start = stop
              · simp only [hse, if_pos, reduceIte] at hnone
                by_cases hp : st.empty_leading_pending = true <;>
                  by_cases hs : s = [] <;>
                  simp [hp, hs] at hnone
              · simp [hse] at hnone
        · intro hcon
          cases hcon

/-- Witness for C10: the empty haystack with a never-matching
delimiter yields the empty string on the first call. -/
theorem strsplit_first_next_some_witness :
    (StrSplit.new [] (fun _ => none)).next.1 = some [] :=
  (strsplit_first_next_some [] (fun _ => none)
      (fun s start stop h => by cases h)).2.1 rfl

end Strsplit
